import Mathlib

/-!
Shallow embedding of `real_traffic_stream.rs` (the outgoing-traffic scheduler
`OutQueueControl` of the nym client), together with proofs about it.

Modelling conventions:
* Durations and time instants are `Nat` (the `Duration` and tokio deadline of the code).
* `MixPacket`, `FragmentIdentifier`, `AckKey`, `Recipient` and topology references
  are opaque to the scheduler; they are wrapped naturals here.
* The CSPRNG `rng` is modelled as indexed draw streams: `rngIdx` counts the
  draws made by `sample_poisson_duration` and `coverRngIdx` the draws made by
  `generate_loop_cover_packet`; the concrete values of the draws are supplied by
  an environment `Env` of pure functions.
* The intake channel `real_receiver` is a `List (List RealMessage)` of batches
  not yet consumed, plus a `closed` flag; polling it (`poll_channel`) yields the
  first queued batch, reports closure when drained and closed, or is pending.
* The two output channels (`mix_tx` and `sent_notifier`) are modelled as an
  event trace: each `on_message` / `on_batch_received` call returns the list of
  sends it performed, in order.
-/

namespace RealTrafficStream

/-- Opaque prepared sphinx packet (`MixPacket`). -/
structure MixPacket where
  bytes : Nat
deriving DecidableEq, Repr

/-- Opaque fragment identifier used for retransmission notifications. -/
structure FragmentIdentifier where
  ident : Nat
deriving DecidableEq, Repr

/-- Model of `RealMessage`: a fully prepared packet plus its identifier. -/
structure RealMessage where
  mix_packet : MixPacket
  fragment_id : FragmentIdentifier
deriving DecidableEq, Repr

/-- Opaque reference to a valid network topology, as obtained from
`try_get_valid_topology_ref` (`none` models "no valid topology"). -/
structure Topology where
  view : Nat
deriving DecidableEq, Repr

/-- Configurable parameters of the `OutQueueControl` (the three mean durations). -/
structure Config where
  average_ack_delay : Nat
  average_packet_delay : Nat
  average_message_sending_delay : Nat
deriving DecidableEq, Repr

/-- The decision outcome: a cover packet must be synthesized, or a real message
is to be emitted (`StreamMessage`). -/
inductive StreamMessage
  | Cover : StreamMessage
  | Real : RealMessage → StreamMessage
deriving DecidableEq, Repr

/-- One send performed on an output channel: a retransmission notification on
`sent_notifier`, or a batch of packets on `mix_tx`. -/
inductive Event
  | notify : FragmentIdentifier → Event
  | mixSend : List MixPacket → Event
deriving DecidableEq, Repr

/-- Environment of pure functions standing for the randomized collaborators:
the draw streams of the CSPRNG as consumed by `sample_poisson_duration`
(argument: draw index and the mean duration) and by
`generate_loop_cover_packet` (arguments: draw index, topology, ack key,
destination, mean ack delay, mean packet delay). -/
structure Env where
  sample_poisson_duration : Nat → Nat → Nat
  generate_loop_cover_packet : Nat → Topology → Nat → Nat → Nat → Nat → MixPacket

/-- Mutable state of `OutQueueControl`: the config, the opaque ack key and own
address, the stored deadline of `next_delay`, the two rng draw counters, and
`received_buffer`. The channels are passed separately (intake as an explicit
queue, outputs as the returned event trace). -/
structure OutQueueControl where
  config : Config
  ack_key : Nat
  our_full_destination : Nat
  next_delay : Nat
  rngIdx : Nat
  coverRngIdx : Nat
  received_buffer : List RealMessage
deriving DecidableEq, Repr

/-- Result of one `poll_next` call on the stream. -/
inductive PollNextResult
  | pendingTimer : PollNextResult
  | streamEnd : PollNextResult
  | item : StreamMessage → PollNextResult
  | unwrapFailed : PollNextResult
deriving DecidableEq, Repr

/-- Result of polling an mpsc receiver. -/
inductive ChannelPoll (α : Type)
  | ready : α → ChannelPoll α
  | closed : ChannelPoll α
  | chanPending : ChannelPoll α
deriving DecidableEq, Repr

/-- Polling the intake channel: yield the first queued batch if any; otherwise
report closure when the sender is gone, else pending. -/
def poll_channel (chan : List (List RealMessage)) (closed : Bool) :
    ChannelPoll (List RealMessage) × List (List RealMessage) :=
  match chan with
  | b :: rest => (.ready b, rest)
  | [] => if closed then (.closed, []) else (.chanPending, [])

/-- Embedding of `Stream::poll_next` of `OutQueueControl` (lines 129-169 of the source).
`deadline_reached` stands for `next_delay.poll(cx)` being ready; `chan` and
`closed` are the current intake-channel contents and closure flag. Returns the
poll outcome, the new state and the remaining channel contents.
`unwrapFailed` models the `pop_front().unwrap()` panic on an empty batch. -/
def poll_next (env : Env) (s : OutQueueControl) (deadline_reached : Bool)
    (chan : List (List RealMessage)) (closed : Bool) :
    PollNextResult × OutQueueControl × List (List RealMessage) :=
  if deadline_reached = false then
    (.pendingTimer, s, chan)
  else
    -- prepare the delay for the next message: `now` is the current `delay`
    -- deadline, the next deadline is `next_poisson_delay` after it
    let avg_delay := s.config.average_message_sending_delay
    let now := s.next_delay
    let next_poisson_delay := env.sample_poisson_duration s.rngIdx avg_delay
    let next := now + next_poisson_delay
    let s : OutQueueControl := { s with next_delay := next, rngIdx := s.rngIdx + 1 }
    -- check if we have anything immediately available
    match s.received_buffer with
    | real_available :: restBuf =>
        (.item (.Real real_available), { s with received_buffer := restBuf }, chan)
    | [] =>
      -- decide what kind of message to send
      match poll_channel chan closed with
      | (.closed, chanRest) => (.streamEnd, s, chanRest)
      | (.ready real_messages, chanRest) =>
          -- store the received batch, then pop its front (`unwrap`)
          match real_messages with
          | [] => (.unwrapFailed, { s with received_buffer := [] }, chanRest)
          | first :: remaining =>
              (.item (.Real first), { s with received_buffer := remaining }, chanRest)
      | (.chanPending, chanRest) => (.item .Cover, s, chanRest)

/-- Embedding of `on_message` (lines 208-258): for `Cover`, read the topology (the per-call
`topology` argument models `try_get_valid_topology_ref`; `none` makes the call
return early with no sends); for `Real`, notify `sent_notifier` with the
fragment id and use the prepared packet. The chosen packet is then sent on
`mix_tx` as a single-element batch. Returns the sends performed, in order. -/
def on_message (env : Env) (s : OutQueueControl) (topology : Option Topology)
    (next_message : StreamMessage) : List Event × OutQueueControl :=
  match next_message with
  | .Cover =>
    match topology with
    | none =>
        -- no valid topology detected: send no loop cover message this time
        ([], s)
    | some topology_ref =>
        let next := env.generate_loop_cover_packet s.coverRngIdx topology_ref
          s.ack_key s.our_full_destination s.config.average_ack_delay
          s.config.average_packet_delay
        ([Event.mixSend [next]], { s with coverRngIdx := s.coverRngIdx + 1 })
  | .Real real_message =>
      ([Event.notify real_message.fragment_id,
        Event.mixSend [real_message.mix_packet]], s)

/-- Embedding of `on_batch_received` (lines 260-267): notify for each message in order while
collecting the packets, then send the whole collected batch on `mix_tx` as one
call. -/
def on_batch_received (s : OutQueueControl) (real_messages : List RealMessage) :
    List Event × OutQueueControl :=
  (real_messages.map (fun m => Event.notify m.fragment_id) ++
    [Event.mixSend (real_messages.map (fun m => m.mix_packet))], s)

/-- Embedding of `run_vpn_out_queue` (lines 283-287): process intake batches with
`on_batch_received` until the channel closes (modelled by the end of the
delivered-batch list), then return. -/
def run_vpn_out_queue (s : OutQueueControl) :
    List (List RealMessage) → List Event × OutQueueControl
  | [] => ([], s)
  | b :: rest =>
      let step := on_batch_received s b
      let toEnd := run_vpn_out_queue step.2 rest
      (step.1 ++ toEnd.1, toEnd.2)

/-- Input of one shaped-mode tick: the batches that arrive on the intake
channel before the poll of this tick, and what `try_get_valid_topology_ref` would
return if a cover packet is needed on this tick. -/
structure TickIn where
  arrivals : List (List RealMessage)
  topology : Option Topology
deriving DecidableEq, Repr

/-- The `while let Some(next_message) = self.next().await` loop of
`run_normal_out_queue` (lines 277-279), driven by fuel. Each iteration polls
the stream with the deadline reached (the loop only resumes on a tick) and
processes the yielded message with `on_message`. While scheduled ticks remain
the intake channel is open (`closed = false`); once `ticks` is exhausted the
producer is gone and the channel is closed, so the loop drains what is left
and then observes `streamEnd` and returns. Returns the list of
(decision, sends of its `on_message`) steps, the final state, and whether the
loop returned by observing stream end. -/
def run_shaped_loop (env : Env) :
    Nat → OutQueueControl → List (List RealMessage) → List TickIn →
    List (StreamMessage × List Event) × OutQueueControl × Bool
  | 0, s, _, _ => ([], s, false)
  | fuel + 1, s, chan, tin :: rest =>
      let chanIn := chan ++ tin.arrivals
      match poll_next env s true chanIn false with
      | (.item m, s1, chanRest) =>
          let processed := on_message env s1 tin.topology m
          let toEnd := run_shaped_loop env fuel processed.2 chanRest rest
          ((m, processed.1) :: toEnd.1, toEnd.2)
      | (.streamEnd, s1, _) => ([], s1, true)
      | (.unwrapFailed, s1, _) => ([], s1, false)
      | (.pendingTimer, s1, _) => ([], s1, false)
  | fuel + 1, s, chan, [] =>
      match poll_next env s true chan true with
      | (.item m, s1, chanRest) =>
          let processed := on_message env s1 none m
          let toEnd := run_shaped_loop env fuel processed.2 chanRest []
          ((m, processed.1) :: toEnd.1, toEnd.2)
      | (.streamEnd, s1, _) => ([], s1, true)
      | (.unwrapFailed, s1, _) => ([], s1, false)
      | (.pendingTimer, s1, _) => ([], s1, false)

/-- Embedding of `run_normal_out_queue` (lines 270-280): set the initial delay from a fresh
Poisson sample only when the stream actually starts (time measured from the
loop start), then run the shaped loop. -/
def run_normal_out_queue (env : Env) (fuel : Nat) (s : OutQueueControl)
    (ticks : List TickIn) :
    List (StreamMessage × List Event) × OutQueueControl × Bool :=
  let s0 : OutQueueControl :=
    { s with
      next_delay :=
        env.sample_poisson_duration s.rngIdx s.config.average_message_sending_delay,
      rngIdx := s.rngIdx + 1 }
  run_shaped_loop env fuel s0 [] ticks

/-- Embedding of `run_out_queue_control` (lines 289-297): mode dispatch. In vpn mode the
intake contents until closure are the `vpnBatches`; in shaped mode the per-tick
schedule is `ticks`. The returned trace is the full list of channel sends. -/
def run_out_queue_control (env : Env) (fuel : Nat) (s : OutQueueControl)
    (vpn_mode : Bool) (vpnBatches : List (List RealMessage)) (ticks : List TickIn) :
    List Event × OutQueueControl :=
  if vpn_mode then
    run_vpn_out_queue s vpnBatches
  else
    let r := run_normal_out_queue env fuel s ticks
    (r.1.flatMap (fun p => p.2), r.2.1)

/-- All sends performed across a list of steps, in order. -/
def stepsTrace (steps : List (StreamMessage × List Event)) : List Event :=
  steps.flatMap (fun p => p.2)

/-- The retransmission notifications contained in a trace, in order. -/
def notifySends (evs : List Event) : List FragmentIdentifier :=
  evs.filterMap (fun e => match e with | .notify i => some i | .mixSend _ => none)

/-- The `mix_tx` batches contained in a trace, in order. -/
def mixSends (evs : List Event) : List (List MixPacket) :=
  evs.filterMap (fun e => match e with | .notify _ => none | .mixSend b => some b)

/-- The packets forwarded downstream by the processing of `Real` decisions
(the cover sends interleaved between them are ignored). -/
def realForwarded (steps : List (StreamMessage × List Event)) : List MixPacket :=
  steps.flatMap (fun p =>
    match p.1 with
    | .Real _ => (mixSends p.2).flatten
    | .Cover => [])

/-- The real messages among the decisions of a run, in order. -/
def realDecisions (steps : List (StreamMessage × List Event)) : List RealMessage :=
  steps.filterMap (fun p =>
    match p.1 with
    | .Real rm => some rm
    | .Cover => none)

/-- Fuel weight of a channel content: one step to install each batch plus one
step per message it holds. -/
def chanWeight (chan : List (List RealMessage)) : Nat :=
  (chan.map (fun b => b.length + 1)).sum

/-- Enough fuel for the shaped loop to consume the whole schedule, drain the
buffer and the channel, and observe closure. -/
def fuelNeeded (s : OutQueueControl) (chan : List (List RealMessage))
    (ticks : List TickIn) : Nat :=
  ticks.length + s.received_buffer.length + chanWeight chan +
    chanWeight (ticks.flatMap (fun t => t.arrivals)) + 1

/-- Iterated deadline-reached polls: the scheduler state after `n` ticks, the
intake contents and closure flag offered at tick `i` given by `inputs i`. -/
def iterPoll (env : Env) (inputs : Nat → List (List RealMessage) × Bool) :
    OutQueueControl → Nat → OutQueueControl
  | s, 0 => s
  | s, n + 1 =>
      (poll_next env (iterPoll env inputs s n) true (inputs n).1 (inputs n).2).2.1

/-- Concrete environment used to evaluate the model on closed inputs. -/
def sampleEnv : Env where
  sample_poisson_duration := fun i avg => avg + i
  generate_loop_cover_packet := fun i _ _ _ _ _ => ⟨1000 + i⟩

/-- Concrete scheduler state used to evaluate the model on closed inputs. -/
def sampleState : OutQueueControl where
  config := { average_ack_delay := 5, average_packet_delay := 7,
              average_message_sending_delay := 50 }
  ack_key := 0
  our_full_destination := 1
  next_delay := 0
  rngIdx := 0
  coverRngIdx := 0
  received_buffer := []

/-- Concrete real message used in closed evaluations. -/
def msg (p i : Nat) : RealMessage := ⟨⟨p⟩, ⟨i⟩⟩

section StateLemmas

/-- On a deadline-reached poll, whatever the intake offers and whichever branch
is taken, the stored deadline advances by exactly the freshly drawn Poisson
sample and the draw counter by one; config, cover counter and identity fields
are untouched. -/
theorem poll_next_state_fields (env : Env) (s : OutQueueControl)
    (chan : List (List RealMessage)) (closed : Bool) :
    ((poll_next env s true chan closed).2.1).next_delay
        = s.next_delay
          + env.sample_poisson_duration s.rngIdx s.config.average_message_sending_delay
      ∧ ((poll_next env s true chan closed).2.1).rngIdx = s.rngIdx + 1
      ∧ ((poll_next env s true chan closed).2.1).config = s.config
      ∧ ((poll_next env s true chan closed).2.1).coverRngIdx = s.coverRngIdx := by
  obtain ⟨cfg, ak, dest, nd, ri, cri, buf⟩ := s
  cases buf with
  | cons m rest => simp [poll_next]
  | nil =>
      cases chan with
      | cons b bs =>
          cases b with
          | nil => simp [poll_next, poll_channel]
          | cons f r => simp [poll_next, poll_channel]
      | nil => cases closed <;> simp [poll_next, poll_channel]

/-- Processing a message with `on_message` never touches the deadline, the Poisson draw counter, the
config or the received buffer. -/
theorem on_message_state_fields (env : Env) (s : OutQueueControl)
    (topology : Option Topology) (m : StreamMessage) :
    ((on_message env s topology m).2).next_delay = s.next_delay
      ∧ ((on_message env s topology m).2).rngIdx = s.rngIdx
      ∧ ((on_message env s topology m).2).config = s.config
      ∧ ((on_message env s topology m).2).received_buffer = s.received_buffer := by
  obtain ⟨cfg, ak, dest, nd, ri, cri, buf⟩ := s
  cases m with
  | Real rm => simp [on_message]
  | Cover => cases topology <;> simp [on_message]

end StateLemmas


/-- Across iterated ticks, the Poisson draw counter advances by one per tick
and the config never changes. -/
theorem iterPoll_rngIdx_config (env : Env)
    (inputs : Nat → List (List RealMessage) × Bool) (s : OutQueueControl) (n : Nat) :
    (iterPoll env inputs s n).rngIdx = s.rngIdx + n
      ∧ (iterPoll env inputs s n).config = s.config := by
  induction n with
  | zero => simp [iterPoll]
  | succ n ih =>
      have h := poll_next_state_fields env (iterPoll env inputs s n)
        (inputs n).1 (inputs n).2
      refine ⟨?_, ?_⟩
      · show (poll_next env (iterPoll env inputs s n) true (inputs n).1 (inputs n).2).2.1.rngIdx = _
        rw [h.2.1, ih.1]
        omega
      · show (poll_next env (iterPoll env inputs s n) true (inputs n).1 (inputs n).2).2.1.config = _
        rw [h.2.2.1, ih.2]

/-- C1: in shaped mode, on every deadline-reached poll the next deadline is
stored as the previous deadline plus a freshly drawn Poisson sample before any
decision is returned (it is the same in every branch of the decision, and no
notion of current time enters it); `on_message` never moves the deadline; and
over any run of `n` ticks the deadline equals the initial deadline plus the
running sum of the drawn samples. -/
theorem deadline_accumulates_from_previous_deadline (env : Env)
    (s : OutQueueControl) (chan : List (List RealMessage)) (closed : Bool)
    (topology : Option Topology) (m : StreamMessage)
    (inputs : Nat → List (List RealMessage) × Bool) (n : Nat) :
    ((poll_next env s true chan closed).2.1).next_delay
        = s.next_delay
          + env.sample_poisson_duration s.rngIdx s.config.average_message_sending_delay
      ∧ ((on_message env s topology m).2).next_delay = s.next_delay
      ∧ (iterPoll env inputs s n).next_delay
        = s.next_delay
          + ∑ i ∈ Finset.range n,
              env.sample_poisson_duration (s.rngIdx + i)
                s.config.average_message_sending_delay := by
  refine ⟨(poll_next_state_fields env s chan closed).1,
    (on_message_state_fields env s topology m).1, ?_⟩
  induction n with
  | zero => simp [iterPoll]
  | succ n ih =>
      have h := poll_next_state_fields env (iterPoll env inputs s n)
        (inputs n).1 (inputs n).2
      have hrc := iterPoll_rngIdx_config env inputs s n
      show (poll_next env (iterPoll env inputs s n) true (inputs n).1 (inputs n).2).2.1.next_delay = _
      rw [h.1, ih, hrc.1, hrc.2, Finset.sum_range_succ, Nat.add_assoc]

/-- C2: on every deadline-reached poll with the channel still open, the
decision is: a non-empty pending queue yields its front as a `Real` decision
with the intake left untouched; an empty queue with an available batch yields
the first message of the batch as `Real` and stores the remainder in order; and an
empty queue with nothing available yields `Cover`. -/
theorem tick_decision_cases (env : Env) (s : OutQueueControl)
    (chan : List (List RealMessage)) (closed : Bool) :
    (∀ m rest, s.received_buffer = m :: rest →
        (poll_next env s true chan closed).1 = .item (.Real m)
          ∧ (poll_next env s true chan closed).2.1.received_buffer = rest
          ∧ (poll_next env s true chan closed).2.2 = chan)
      ∧ (∀ first remaining chanRest,
          s.received_buffer = [] → chan = (first :: remaining) :: chanRest →
            (poll_next env s true chan closed).1 = .item (.Real first)
              ∧ (poll_next env s true chan closed).2.1.received_buffer = remaining
              ∧ (poll_next env s true chan closed).2.2 = chanRest)
      ∧ (s.received_buffer = [] → chan = [] → closed = false →
          (poll_next env s true chan closed).1 = .item .Cover
            ∧ (poll_next env s true chan closed).2.1.received_buffer = []
            ∧ (poll_next env s true chan closed).2.2 = []) := by
  obtain ⟨cfg, ak, dest, nd, ri, cri, buf⟩ := s
  refine ⟨?_, ?_, ?_⟩
  · intro m rest hbuf
    simp only at hbuf
    subst hbuf
    simp [poll_next]
  · intro first remaining chanRest hbuf hchan
    simp only at hbuf
    subst hbuf hchan
    simp [poll_next, poll_channel]
  · intro hbuf hchan hclosed
    simp only at hbuf
    subst hbuf hchan hclosed
    simp [poll_next, poll_channel]

/-- Witness for `tick_decision_cases`, exercising all three branches on
concrete inputs. -/
theorem tick_decision_cases_witness :
    ((poll_next sampleEnv { sampleState with received_buffer := [msg 3 3] }
        true [[msg 4 4]] false).1 = .item (.Real (msg 3 3)))
      ∧ ((poll_next sampleEnv sampleState true [[msg 5 5, msg 6 6]] false).1
          = .item (.Real (msg 5 5)))
      ∧ ((poll_next sampleEnv sampleState true [] false).1 = .item .Cover) :=
  ⟨((tick_decision_cases sampleEnv { sampleState with received_buffer := [msg 3 3] }
      [[msg 4 4]] false).1 (msg 3 3) [] rfl).1,
   ((tick_decision_cases sampleEnv sampleState [[msg 5 5, msg 6 6]] false).2.1
      (msg 5 5) [msg 6 6] [] rfl rfl).1,
   ((tick_decision_cases sampleEnv sampleState [] false).2.2 rfl rfl rfl).1⟩

/-- C7: processing a `Real` decision first emits the notification carrying the
identifier of the packet and only then hands the packet downstream, as a
single-element batch; the scheduler state is untouched. -/
theorem real_emission_notifies_before_send (env : Env) (s : OutQueueControl)
    (topology : Option Topology) (rm : RealMessage) :
    on_message env s topology (.Real rm)
      = ([Event.notify rm.fragment_id, Event.mixSend [rm.mix_packet]], s) := rfl

/-- C6: processing a `Cover` decision when no valid topology is obtainable
emits nothing and returns with the state unchanged, and the shaped loop simply
continues with the next tick after such a skipped emission. -/
theorem cover_without_topology_skips_tick (env : Env) (s : OutQueueControl)
    (fuel : Nat) (tin : TickIn) (rest : List TickIn) :
    on_message env s none .Cover = ([], s)
      ∧ (s.received_buffer = [] → tin.arrivals = [] → tin.topology = none →
          run_shaped_loop env (fuel + 1) s [] (tin :: rest)
            = ((StreamMessage.Cover, []) ::
                (run_shaped_loop env fuel (poll_next env s true [] false).2.1 [] rest).1,
               (run_shaped_loop env fuel (poll_next env s true [] false).2.1 [] rest).2)) := by
  constructor
  · rfl
  · intro hbuf harr htopo
    obtain ⟨cfg, ak, dest, nd, ri, cri, buf⟩ := s
    simp only at hbuf
    subst hbuf
    simp [run_shaped_loop, harr, htopo, poll_next, poll_channel, on_message]

/-- Witness for `cover_without_topology_skips_tick` on concrete inputs. -/
theorem cover_without_topology_skips_tick_witness :
    on_message sampleEnv sampleState none .Cover = ([], sampleState)
      ∧ run_shaped_loop sampleEnv 1 sampleState []
          [{ arrivals := [], topology := none }]
          = ((StreamMessage.Cover, []) ::
              (run_shaped_loop sampleEnv 0
                (poll_next sampleEnv sampleState true [] false).2.1 [] []).1,
             (run_shaped_loop sampleEnv 0
                (poll_next sampleEnv sampleState true [] false).2.1 [] []).2) :=
  ⟨(cover_without_topology_skips_tick sampleEnv sampleState 0
      { arrivals := [], topology := none } []).1,
   (cover_without_topology_skips_tick sampleEnv sampleState 0
      { arrivals := [], topology := none } []).2 rfl rfl rfl⟩

/-- C8: the pending queue is consumed only one element at a time from the
front (with the intake never consulted while it is non-empty), a fresh intake
batch lands in it only when it is empty (and then holds the batch minus its
popped front, in order), and `on_message` never modifies it. -/
theorem received_buffer_refill_only_when_empty (env : Env) (s : OutQueueControl)
    (chan : List (List RealMessage)) (closed : Bool)
    (topology : Option Topology) (m : StreamMessage) :
    (s.received_buffer ≠ [] →
        (poll_next env s true chan closed).2.1.received_buffer
            = s.received_buffer.tail
          ∧ (poll_next env s true chan closed).2.2 = chan)
      ∧ (∀ b chanRest, s.received_buffer = [] → chan = b :: chanRest →
          (poll_next env s true chan closed).2.1.received_buffer = b.tail)
      ∧ (on_message env s topology m).2.received_buffer = s.received_buffer := by
  refine ⟨?_, ?_, (on_message_state_fields env s topology m).2.2.2⟩
  · intro hne
    obtain ⟨cfg, ak, dest, nd, ri, cri, buf⟩ := s
    cases buf with
    | nil => simp at hne
    | cons hd tl => simp [poll_next]
  · intro b chanRest hbuf hchan
    obtain ⟨cfg, ak, dest, nd, ri, cri, buf⟩ := s
    simp only at hbuf
    subst hbuf hchan
    cases b with
    | nil => simp [poll_next, poll_channel]
    | cons f r => simp [poll_next, poll_channel]

/-- Witness for `received_buffer_refill_only_when_empty` on concrete inputs. -/
theorem received_buffer_refill_only_when_empty_witness :
    ((poll_next sampleEnv { sampleState with received_buffer := [msg 1 1, msg 2 2] }
        true [[msg 7 7]] false).2.1.received_buffer = [msg 2 2])
      ∧ ((poll_next sampleEnv sampleState true [[msg 5 5, msg 6 6]] false).2.1.received_buffer
          = [msg 6 6])
      ∧ (on_message sampleEnv sampleState none .Cover).2.received_buffer = [] :=
  ⟨((received_buffer_refill_only_when_empty sampleEnv
      { sampleState with received_buffer := [msg 1 1, msg 2 2] } [[msg 7 7]] false
      none .Cover).1 (by decide)).1,
   (received_buffer_refill_only_when_empty sampleEnv sampleState
      [[msg 5 5, msg 6 6]] false none .Cover).2.1 [msg 5 5, msg 6 6] [] rfl rfl,
   (received_buffer_refill_only_when_empty sampleEnv sampleState
      [[msg 5 5, msg 6 6]] false none .Cover).2.2⟩

/-- C9: when every batch offered by the intake channel is non-empty, the
`pop_front().unwrap()` after storing a freshly received batch can never fail;
and on an input holding an empty batch it does fail, so the upstream
non-emptiness precondition is load-bearing. -/
theorem pop_front_unwrap_safety (env : Env) (s : OutQueueControl)
    (chan : List (List RealMessage)) (closed : Bool) :
    ((∀ b, b ∈ chan → b ≠ []) →
        (poll_next env s true chan closed).1 ≠ .unwrapFailed)
      ∧ (poll_next sampleEnv sampleState true [[]] false).1 = .unwrapFailed := by
  refine ⟨?_, by decide⟩
  intro hne
  obtain ⟨cfg, ak, dest, nd, ri, cri, buf⟩ := s
  cases buf with
  | cons hd tl => simp [poll_next]
  | nil =>
      cases chan with
      | nil => cases closed <;> simp [poll_next, poll_channel]
      | cons b bs =>
          cases b with
          | nil => exact absurd rfl (hne [] (by simp))
          | cons f r => simp [poll_next, poll_channel]

/-- Witness for `pop_front_unwrap_safety` on concrete inputs. -/
theorem pop_front_unwrap_safety_witness :
    ((poll_next sampleEnv sampleState true [[msg 1 1]] false).1 ≠ .unwrapFailed)
      ∧ (poll_next sampleEnv sampleState true [[]] false).1 = .unwrapFailed :=
  ⟨(pop_front_unwrap_safety sampleEnv sampleState [[msg 1 1]] false).1 (by decide),
   (pop_front_unwrap_safety sampleEnv sampleState [[msg 1 1]] false).2⟩

section TraceLemmas

@[simp]
theorem stepsTrace_nil : stepsTrace [] = [] := rfl

@[simp]
theorem stepsTrace_cons (p : StreamMessage × List Event)
    (l : List (StreamMessage × List Event)) :
    stepsTrace (p :: l) = p.2 ++ stepsTrace l := by
  simp [stepsTrace]

@[simp]
theorem notifySends_nil : notifySends [] = [] := rfl

@[simp]
theorem notifySends_append (a b : List Event) :
    notifySends (a ++ b) = notifySends a ++ notifySends b := by
  simp [notifySends]

@[simp]
theorem notifySends_cons_notify (i : FragmentIdentifier) (l : List Event) :
    notifySends (Event.notify i :: l) = i :: notifySends l := by
  simp [notifySends]

@[simp]
theorem notifySends_cons_mixSend (b : List MixPacket) (l : List Event) :
    notifySends (Event.mixSend b :: l) = notifySends l := by
  simp [notifySends]

@[simp]
theorem mixSends_nil : mixSends [] = [] := rfl

@[simp]
theorem mixSends_append (a b : List Event) :
    mixSends (a ++ b) = mixSends a ++ mixSends b := by
  simp [mixSends]

@[simp]
theorem mixSends_cons_notify (i : FragmentIdentifier) (l : List Event) :
    mixSends (Event.notify i :: l) = mixSends l := by
  simp [mixSends]

@[simp]
theorem mixSends_cons_mixSend (b : List MixPacket) (l : List Event) :
    mixSends (Event.mixSend b :: l) = b :: mixSends l := by
  simp [mixSends]

@[simp]
theorem realDecisions_nil : realDecisions [] = [] := rfl

@[simp]
theorem realDecisions_cons_real (rm : RealMessage) (evs : List Event)
    (l : List (StreamMessage × List Event)) :
    realDecisions ((StreamMessage.Real rm, evs) :: l) = rm :: realDecisions l := by
  simp [realDecisions]

@[simp]
theorem realDecisions_cons_cover (evs : List Event)
    (l : List (StreamMessage × List Event)) :
    realDecisions ((StreamMessage.Cover, evs) :: l) = realDecisions l := by
  simp [realDecisions]

@[simp]
theorem realForwarded_nil : realForwarded [] = [] := rfl

@[simp]
theorem realForwarded_cons_real (rm : RealMessage) (evs : List Event)
    (l : List (StreamMessage × List Event)) :
    realForwarded ((StreamMessage.Real rm, evs) :: l)
      = (mixSends evs).flatten ++ realForwarded l := by
  simp [realForwarded]

@[simp]
theorem realForwarded_cons_cover (evs : List Event)
    (l : List (StreamMessage × List Event)) :
    realForwarded ((StreamMessage.Cover, evs) :: l) = realForwarded l := by
  simp [realForwarded]

@[simp]
theorem notifySends_map_notify (l : List RealMessage) :
    notifySends (l.map (fun m => Event.notify m.fragment_id))
      = l.map (fun m => m.fragment_id) := by
  induction l with
  | nil => rfl
  | cons m r ih => simp [ih]

@[simp]
theorem mixSends_map_notify (l : List RealMessage) :
    mixSends (l.map (fun m => Event.notify m.fragment_id)) = [] := by
  induction l with
  | nil => rfl
  | cons m r ih => simp [ih]

end TraceLemmas

/-- Trace and final state of the vpn-mode loop: per delivered batch, the
notifications in order followed by the single collected `mix_tx` send; the
scheduler state is never modified. -/
theorem run_vpn_trace (s : OutQueueControl) (batches : List (List RealMessage)) :
    (run_vpn_out_queue s batches).1
        = batches.flatMap (fun b =>
            b.map (fun m => Event.notify m.fragment_id)
              ++ [Event.mixSend (b.map (fun m => m.mix_packet))])
      ∧ (run_vpn_out_queue s batches).2 = s := by
  induction batches with
  | nil => simp [run_vpn_out_queue]
  | cons b rest ih => simp [run_vpn_out_queue, on_batch_received, ih.1, ih.2]

/-- The notifications and downstream packets of a vpn-mode run are the
fragment ids and packets of the delivered messages, in order. -/
theorem run_vpn_sends (s : OutQueueControl) (batches : List (List RealMessage)) :
    notifySends (run_vpn_out_queue s batches).1
        = batches.flatten.map (fun m => m.fragment_id)
      ∧ (mixSends (run_vpn_out_queue s batches).1).flatten
        = batches.flatten.map (fun m => m.mix_packet) := by
  rw [(run_vpn_trace s batches).1]
  induction batches with
  | nil => simp
  | cons b rest ih =>
      refine ⟨?_, ?_⟩
      · simp only [List.flatMap_cons, notifySends_append, ih.1]
        simp
      · simp only [List.flatMap_cons, mixSends_append, List.flatten_append, ih.2]
        simp

/-- C5: in unshaped (vpn) mode, a delivered batch of `k` messages produces the
`k` notifications in order and exactly one downstream send call carrying all
`k` packets in batch order; the trace of the whole vpn run consists of exactly
these per-batch sends — in particular no cover packet is ever produced. -/
theorem vpn_batch_passthrough (s : OutQueueControl)
    (real_messages : List RealMessage) (batches : List (List RealMessage)) :
    on_batch_received s real_messages
        = (real_messages.map (fun m => Event.notify m.fragment_id)
            ++ [Event.mixSend (real_messages.map (fun m => m.mix_packet))], s)
      ∧ notifySends (on_batch_received s real_messages).1
          = real_messages.map (fun m => m.fragment_id)
      ∧ mixSends (on_batch_received s real_messages).1
          = [real_messages.map (fun m => m.mix_packet)]
      ∧ (notifySends (on_batch_received s real_messages).1).length
          = real_messages.length
      ∧ (mixSends (on_batch_received s real_messages).1).length = 1
      ∧ (run_vpn_out_queue s batches).1
          = batches.flatMap (fun b =>
              b.map (fun m => Event.notify m.fragment_id)
                ++ [Event.mixSend (b.map (fun m => m.mix_packet))]) := by
  have h1 : notifySends (on_batch_received s real_messages).1
      = real_messages.map (fun m => m.fragment_id) := by
    simp [on_batch_received]
  have h2 : mixSends (on_batch_received s real_messages).1
      = [real_messages.map (fun m => m.mix_packet)] := by
    simp [on_batch_received]
  refine ⟨rfl, h1, h2, ?_, ?_, (run_vpn_trace s batches).1⟩
  · rw [h1]; simp
  · rw [h2]; rfl

/-- Shape of a shaped-mode run: the notifications of its trace are exactly the
fragment ids of its `Real` decisions, and the packets it forwards while
processing `Real` decisions are exactly the packets of those decisions, both in
decision order. -/
theorem run_steps_shape (env : Env) :
    ∀ (fuel : Nat) (s : OutQueueControl) (chan : List (List RealMessage))
      (ticks : List TickIn),
      notifySends (stepsTrace (run_shaped_loop env fuel s chan ticks).1)
          = (realDecisions (run_shaped_loop env fuel s chan ticks).1).map
              (fun m => m.fragment_id)
        ∧ realForwarded (run_shaped_loop env fuel s chan ticks).1
          = (realDecisions (run_shaped_loop env fuel s chan ticks).1).map
              (fun m => m.mix_packet) := by
  intro fuel
  induction fuel with
  | zero => intro s chan ticks; simp [run_shaped_loop]
  | succ fuel ih =>
      intro s chan ticks
      cases ticks with
      | cons tin rest =>
          rcases hp : poll_next env s true (chan ++ tin.arrivals) false
            with ⟨res, s1, chanRest⟩
          cases res with
          | item m =>
              cases m with
              | Cover =>
                  have hev : notifySends (on_message env s1 tin.topology .Cover).1
                      = [] := by
                    cases tin.topology <;> simp [on_message]
                  have hrec := ih (on_message env s1 tin.topology .Cover).2 chanRest rest
                  simp [run_shaped_loop, hp, hev, hrec.1, hrec.2]
              | Real rm =>
                  have hrec := ih s1 chanRest rest
                  simp [run_shaped_loop, hp, on_message, hrec.1, hrec.2]
          | streamEnd => simp [run_shaped_loop, hp]
          | unwrapFailed => simp [run_shaped_loop, hp]
          | pendingTimer => simp [run_shaped_loop, hp]
      | nil =>
          rcases hp : poll_next env s true chan true with ⟨res, s1, chanRest⟩
          cases res with
          | item m =>
              cases m with
              | Cover =>
                  have hev : notifySends (on_message env s1 none .Cover).1 = [] := by
                    simp [on_message]
                  have hrec := ih (on_message env s1 none .Cover).2 chanRest []
                  simp [run_shaped_loop, hp, hev, hrec.1, hrec.2]
              | Real rm =>
                  have hrec := ih s1 chanRest []
                  simp [run_shaped_loop, hp, on_message, hrec.1, hrec.2]
          | streamEnd => simp [run_shaped_loop, hp]
          | unwrapFailed => simp [run_shaped_loop, hp]
          | pendingTimer => simp [run_shaped_loop, hp]

/-- C10: processing a `Cover` decision sends nothing on the notification
side-channel and leaves the pending queue untouched, whatever the topology;
and in both modes the number of notifications emitted equals the number of
real packets emitted. -/
theorem cover_frame_and_notification_count (env : Env) (s : OutQueueControl)
    (topology : Option Topology) (fuel : Nat) (chan : List (List RealMessage))
    (ticks : List TickIn) (batches : List (List RealMessage)) :
    notifySends (on_message env s topology .Cover).1 = []
      ∧ (on_message env s topology .Cover).2.received_buffer = s.received_buffer
      ∧ (notifySends (stepsTrace (run_shaped_loop env fuel s chan ticks).1)).length
          = (realForwarded (run_shaped_loop env fuel s chan ticks).1).length
      ∧ (notifySends (run_vpn_out_queue s batches).1).length
          = ((mixSends (run_vpn_out_queue s batches).1).flatten).length := by
  refine ⟨?_, (on_message_state_fields env s topology .Cover).2.2.2, ?_, ?_⟩
  · cases topology <;> simp [on_message]
  · have h := run_steps_shape env fuel s chan ticks
    rw [h.1, h.2]; simp
  · have h := run_vpn_sends s batches
    rw [h.1, h.2]; simp only [List.length_map]

section FuelLemmas

@[simp]
theorem chanWeight_nil : chanWeight [] = 0 := rfl

@[simp]
theorem chanWeight_cons (b : List RealMessage) (l : List (List RealMessage)) :
    chanWeight (b :: l) = b.length + 1 + chanWeight l := by
  simp [chanWeight]

@[simp]
theorem chanWeight_append (a b : List (List RealMessage)) :
    chanWeight (a ++ b) = chanWeight a + chanWeight b := by
  simp [chanWeight]

end FuelLemmas

section PollCaseLemmas

/-- Calling `poll_next` on a tick with a non-empty pending queue pops its front,
whatever the intake channel holds. -/
theorem poll_next_buffer_cons (env : Env) (s : OutQueueControl)
    (chan : List (List RealMessage)) (closed : Bool) (m : RealMessage)
    (restBuf : List RealMessage) (h : s.received_buffer = m :: restBuf) :
    poll_next env s true chan closed
      = (.item (.Real m),
         { s with
             next_delay := s.next_delay
               + env.sample_poisson_duration s.rngIdx
                   s.config.average_message_sending_delay,
             rngIdx := s.rngIdx + 1,
             received_buffer := restBuf }, chan) := by
  obtain ⟨cfg, ak, dest, nd, ri, cri, buf⟩ := s
  simp only at h
  subst h
  simp [poll_next]

/-- Calling `poll_next` on a tick with an empty pending queue and an available
non-empty batch installs the batch and pops its front. -/
theorem poll_next_install (env : Env) (s : OutQueueControl)
    (chan : List (List RealMessage)) (closed : Bool) (f : RealMessage)
    (r : List RealMessage) (chanRest : List (List RealMessage))
    (hbuf : s.received_buffer = []) (hchan : chan = (f :: r) :: chanRest) :
    poll_next env s true chan closed
      = (.item (.Real f),
         { s with
             next_delay := s.next_delay
               + env.sample_poisson_duration s.rngIdx
                   s.config.average_message_sending_delay,
             rngIdx := s.rngIdx + 1,
             received_buffer := r }, chanRest) := by
  obtain ⟨cfg, ak, dest, nd, ri, cri, buf⟩ := s
  simp only at hbuf
  subst hbuf hchan
  simp [poll_next, poll_channel]

/-- Calling `poll_next` on a tick with an empty pending queue and a pending open
channel decides `Cover`. -/
theorem poll_next_cover_case (env : Env) (s : OutQueueControl)
    (hbuf : s.received_buffer = []) :
    poll_next env s true [] false
      = (.item .Cover,
         { s with
             next_delay := s.next_delay
               + env.sample_poisson_duration s.rngIdx
                   s.config.average_message_sending_delay,
             rngIdx := s.rngIdx + 1 }, []) := by
  obtain ⟨cfg, ak, dest, nd, ri, cri, buf⟩ := s
  simp only at hbuf
  subst hbuf
  simp [poll_next, poll_channel]

/-- Calling `poll_next` on a tick with an empty pending queue and a drained, closed
channel reports stream end (after still re-arming the deadline). -/
theorem poll_next_at_closed (env : Env) (s : OutQueueControl)
    (hbuf : s.received_buffer = []) :
    poll_next env s true [] true
      = (.streamEnd,
         { s with
             next_delay := s.next_delay
               + env.sample_poisson_duration s.rngIdx
                   s.config.average_message_sending_delay,
             rngIdx := s.rngIdx + 1 }, []) := by
  obtain ⟨cfg, ak, dest, nd, ri, cri, buf⟩ := s
  simp only at hbuf
  subst hbuf
  simp [poll_next, poll_channel]

end PollCaseLemmas

/-- With enough fuel, and only non-empty batches offered on intake, the shaped
loop runs to stream end, and its `Real` decisions are exactly the initial
buffer contents followed by the channel contents and all scheduled arrivals,
message by message in order. -/
theorem run_shaped_complete (env : Env) :
    ∀ (fuel : Nat) (ticks : List TickIn) (s : OutQueueControl)
      (chan : List (List RealMessage)),
      fuelNeeded s chan ticks ≤ fuel →
      (∀ b ∈ chan, b ≠ []) →
      (∀ t ∈ ticks, ∀ b ∈ t.arrivals, b ≠ []) →
      realDecisions (run_shaped_loop env fuel s chan ticks).1
          = s.received_buffer
              ++ (chan ++ ticks.flatMap (fun t => t.arrivals)).flatten
        ∧ (run_shaped_loop env fuel s chan ticks).2.2 = true := by
  intro fuel
  induction fuel with
  | zero =>
      intro ticks s chan hfuel _ _
      exfalso
      simp only [fuelNeeded] at hfuel
      omega
  | succ fuel ih =>
      intro ticks s chan hfuel hchan hticks
      cases ticks with
      | cons tin rest =>
          obtain ⟨arr, topo⟩ := tin
          have hchanIn : ∀ b ∈ chan ++ arr, b ≠ [] := by
            intro b hb
            rcases List.mem_append.1 hb with hb | hb
            · exact hchan b hb
            · exact hticks ⟨arr, topo⟩ (List.mem_cons_self _ _) b hb
          have hrest : ∀ t ∈ rest, ∀ b ∈ t.arrivals, b ≠ [] :=
            fun t ht => hticks t (List.mem_cons_of_mem _ ht)
          cases hbuf : s.received_buffer with
          | cons m restBuf =>
              have hpoll := poll_next_buffer_cons env s (chan ++ arr) false m restBuf hbuf
              have hfuel2 :
                  fuelNeeded
                    { s with
                        next_delay := s.next_delay
                          + env.sample_poisson_duration s.rngIdx
                              s.config.average_message_sending_delay,
                        rngIdx := s.rngIdx + 1,
                        received_buffer := restBuf } (chan ++ arr) rest ≤ fuel := by
                simp only [fuelNeeded, chanWeight_append, List.flatMap_cons,
                  List.length_cons, hbuf] at hfuel ⊢
                omega
              have hrec := ih rest _ (chan ++ arr) hfuel2 hchanIn hrest
              simp only [run_shaped_loop, hpoll, on_message]
              simp [hrec.1, hrec.2, List.flatten_append, List.append_assoc]
          | nil =>
              cases hchn : chan ++ arr with
              | nil =>
                  have hchanNil : chan = [] := (List.append_eq_nil.1 hchn).1
                  have harrNil : arr = [] := (List.append_eq_nil.1 hchn).2
                  subst hchanNil harrNil
                  have hpoll := poll_next_cover_case env s hbuf
                  have hfuel2 :
                      ∀ s2 : OutQueueControl, s2.received_buffer = [] →
                        fuelNeeded s2 [] rest ≤ fuel := by
                    intro s2 hs2
                    simp only [fuelNeeded, List.flatMap_cons, hbuf, hs2,
                      List.nil_append, List.length_cons] at hfuel ⊢
                    omega
                  simp only [run_shaped_loop, List.nil_append, hpoll]
                  cases topo with
                  | none =>
                      have hrec := ih rest
                        { s with
                            next_delay := s.next_delay
                              + env.sample_poisson_duration s.rngIdx
                                  s.config.average_message_sending_delay,
                            rngIdx := s.rngIdx + 1,
                            received_buffer := [] } []
                        (hfuel2 _ (by simp)) (by simp) hrest
                      simp [on_message, hrec.1, hrec.2, hbuf]
                  | some t =>
                      have hrec := ih rest
                        { s with
                            next_delay := s.next_delay
                              + env.sample_poisson_duration s.rngIdx
                                  s.config.average_message_sending_delay,
                            rngIdx := s.rngIdx + 1,
                            coverRngIdx := s.coverRngIdx + 1,
                            received_buffer := [] } []
                        (hfuel2 _ (by simp)) (by simp) hrest
                      simp [on_message, hrec.1, hrec.2, hbuf]
              | cons b bs =>
                  have hbmem : b ∈ chan ++ arr := by
                    rw [hchn]; exact List.mem_cons_self _ _
                  cases b with
                  | nil => exact absurd rfl (hchanIn [] hbmem)
                  | cons f r =>
                      have hpoll := poll_next_install env s (chan ++ arr) false f r bs hbuf hchn
                      have hw : chanWeight chan + chanWeight arr
                          = r.length + 2 + chanWeight bs := by
                        rw [← chanWeight_append, hchn, chanWeight_cons]
                        simp
                      have hfuel2 :
                          fuelNeeded
                            { s with
                                next_delay := s.next_delay
                                  + env.sample_poisson_duration s.rngIdx
                                      s.config.average_message_sending_delay,
                                rngIdx := s.rngIdx + 1,
                                received_buffer := r } bs rest ≤ fuel := by
                        simp only [fuelNeeded, chanWeight_append, List.flatMap_cons,
                          List.length_cons, hbuf] at hfuel ⊢
                        omega
                      have hbs : ∀ x ∈ bs, x ≠ [] := by
                        intro x hx
                        exact hchanIn x (by rw [hchn]; exact List.mem_cons_of_mem _ hx)
                      have hrec := ih rest _ bs hfuel2 hbs hrest
                      have hrhs :
                          (chan ++ (arr ++ rest.flatMap (fun t => t.arrivals))).flatten
                            = f :: (r ++ (bs ++ rest.flatMap (fun t => t.arrivals)).flatten) := by
                        rw [← List.append_assoc, hchn]
                        simp
                      simp only [run_shaped_loop, hpoll, on_message]
                      simp [hrec.1, hrec.2, List.flatMap_cons, hrhs]
      | nil =>
          cases hbuf : s.received_buffer with
          | cons m restBuf =>
              have hpoll := poll_next_buffer_cons env s chan true m restBuf hbuf
              have hfuel2 :
                  fuelNeeded
                    { s with
                        next_delay := s.next_delay
                          + env.sample_poisson_duration s.rngIdx
                              s.config.average_message_sending_delay,
                        rngIdx := s.rngIdx + 1,
                        received_buffer := restBuf } chan [] ≤ fuel := by
                simp only [fuelNeeded, List.length_cons, hbuf] at hfuel ⊢
                omega
              have hrec := ih [] _ chan hfuel2 hchan (by simp)
              simp only [run_shaped_loop, hpoll, on_message]
              simp [hrec.1, hrec.2]
          | nil =>
              cases hchn : chan with
              | nil =>
                  subst hchn
                  have hpoll := poll_next_at_closed env s hbuf
                  simp only [run_shaped_loop, hpoll]
                  simp [hbuf]
              | cons b bs =>
                  have hbmem : b ∈ chan := by rw [hchn]; exact List.mem_cons_self _ _
                  cases b with
                  | nil => exact absurd rfl (hchan [] hbmem)
                  | cons f r =>
                      have hpoll := poll_next_install env s ((f :: r) :: bs) true f r bs hbuf rfl
                      have hfuel2 :
                          fuelNeeded
                            { s with
                                next_delay := s.next_delay
                                  + env.sample_poisson_duration s.rngIdx
                                      s.config.average_message_sending_delay,
                                rngIdx := s.rngIdx + 1,
                                received_buffer := r } bs [] ≤ fuel := by
                        have hw : chanWeight chan = r.length + 2 + chanWeight bs := by
                          rw [hchn, chanWeight_cons]
                          simp
                        simp only [fuelNeeded, hbuf, hw] at hfuel ⊢
                        omega
                      have hbs : ∀ x ∈ bs, x ≠ [] := by
                        intro x hx
                        exact hchan x (by rw [hchn]; exact List.mem_cons_of_mem _ hx)
                      have hrec := ih [] _ bs hfuel2 hbs (by simp)
                      have hrhs : chan.flatten = f :: (r ++ bs.flatten) := by
                        rw [hchn]
                        simp
                      simp only [run_shaped_loop, hpoll, on_message]
                      simp [hrec.1, hrec.2, hrhs]

/-- C3: for any schedule of non-empty real-message batches delivered to the
intake channel in shaped mode, the packets forwarded downstream while
processing `Real` decisions are exactly the concatenation of the delivered
batches, in delivery order, item by item (the interleaved cover sends being
ignored). -/
theorem shaped_order_preservation (env : Env) (s : OutQueueControl)
    (ticks : List TickIn) (hbuf : s.received_buffer = [])
    (hne : ∀ t ∈ ticks, ∀ b ∈ t.arrivals, b ≠ []) :
    realForwarded (run_shaped_loop env (fuelNeeded s [] ticks) s [] ticks).1
      = ((ticks.flatMap (fun t => t.arrivals)).flatten).map
          (fun m => m.mix_packet) := by
  have hc := run_shaped_complete env (fuelNeeded s [] ticks) ticks s []
    le_rfl (by simp) hne
  have hs := run_steps_shape env (fuelNeeded s [] ticks) s [] ticks
  rw [hs.2, hc.1, hbuf]
  simp

/-- Concrete shaped-mode schedule used to exercise `shaped_order_preservation`:
two non-empty batches with an idle (cover) tick in between. -/
def sampleTicks : List TickIn :=
  [{ arrivals := [[msg 1 1, msg 2 2]], topology := some ⟨0⟩ },
   { arrivals := [], topology := none },
   { arrivals := [[msg 3 3]], topology := some ⟨0⟩ }]

/-- Witness for `shaped_order_preservation` on a concrete schedule. -/
theorem shaped_order_preservation_witness :
    realForwarded
        (run_shaped_loop sampleEnv (fuelNeeded sampleState [] sampleTicks)
          sampleState [] sampleTicks).1
      = ((sampleTicks.flatMap (fun t => t.arrivals)).flatten).map
          (fun m => m.mix_packet) :=
  shaped_order_preservation sampleEnv sampleState sampleTicks rfl (by decide)

/-- C4: closure of the intake channel is the sole terminal condition: with
enough fuel the shaped loop always reaches stream end (a bounded number of
scheduling steps), a drained closed intake with an empty pending queue ends
the shaped loop at once with no further emissions, and the vpn loop returns
as soon as the closed channel has no batch left. -/
theorem intake_closure_terminates :
    (∀ (env : Env) (fuel : Nat) (s : OutQueueControl)
        (chan : List (List RealMessage)) (ticks : List TickIn),
        fuelNeeded s chan ticks ≤ fuel →
        (∀ b ∈ chan, b ≠ []) →
        (∀ t ∈ ticks, ∀ b ∈ t.arrivals, b ≠ []) →
        (run_shaped_loop env fuel s chan ticks).2.2 = true)
      ∧ (∀ (env : Env) (fuel : Nat) (s : OutQueueControl),
          s.received_buffer = [] →
            (run_shaped_loop env (fuel + 1) s [] []).1 = []
              ∧ (run_shaped_loop env (fuel + 1) s [] []).2.2 = true)
      ∧ (∀ s : OutQueueControl, run_vpn_out_queue s [] = ([], s)) := by
  refine ⟨fun env fuel s chan ticks h1 h2 h3 =>
    (run_shaped_complete env fuel ticks s chan h1 h2 h3).2, ?_, fun s => rfl⟩
  intro env fuel s hbuf
  have hpoll := poll_next_at_closed env s hbuf
  constructor <;> simp [run_shaped_loop, hpoll]

/-- Witness for `intake_closure_terminates` on concrete inputs. -/
theorem intake_closure_terminates_witness :
    (run_shaped_loop sampleEnv 1 sampleState [] []).2.2 = true
      ∧ (run_shaped_loop sampleEnv 1 sampleState [] []).1 = []
      ∧ run_vpn_out_queue sampleState [] = ([], sampleState) :=
  ⟨intake_closure_terminates.1 sampleEnv 1 sampleState [] []
      (by decide) (by decide) (by decide),
   (intake_closure_terminates.2.1 sampleEnv 0 sampleState rfl).1,
   intake_closure_terminates.2.2 sampleState⟩

end RealTrafficStream
